import Mathlib

/-!
Verification of the SVG arc math utilities of `tremor-gauge`
(`src/utils/arc.ts`), embedded shallowly over the real numbers.

The TypeScript functions are pure numeric functions; `number` is modelled
as `ℝ` (the properties under scrutiny are stated under exact arithmetic).
The SVG `stroke-dasharray` string `"a b"` built by the code is modelled as
the pair `(a, b) : ℝ × ℝ` of the two numbers interpolated into it.
-/

open Real

namespace TremorGauge

/-- Convert degrees to radians (`degToRad` in `arc.ts`). -/
noncomputable def degToRad (deg : ℝ) : ℝ :=
  deg * Real.pi / 180

/-- Convert polar coordinates to cartesian, SVG coordinate system
(`polarToCartesian` in `arc.ts`): the code subtracts 90° from the input
angle before the standard conversion. -/
noncomputable def polarToCartesian (cx cy radius angleDeg : ℝ) : ℝ × ℝ :=
  let rad := degToRad (angleDeg - 90)
  (cx + radius * Real.cos rad, cy + radius * Real.sin rad)

/-- Result record of `getArcDash`: the dash string `"arcLength circumference"`
is modelled as the pair of its two numbers. -/
structure ArcDash where
  circumference : ℝ
  dashArray : ℝ × ℝ
  dashOffset : ℝ
  rotationDeg : ℝ

/-- `getArcDash` from `arc.ts`: stroke-dasharray / stroke-dashoffset for a
circle-based arc gauge. -/
noncomputable def getArcDash (radius arcSpan fraction : ℝ) : ArcDash :=
  let circumference := 2 * Real.pi * radius
  let arcLength := (arcSpan / 360) * circumference
  let filledLength := arcLength * Max.max 0 (Min.min 1 fraction)
  { circumference := circumference
    dashArray := (arcLength, circumference)
    dashOffset := arcLength - filledLength
    rotationDeg := 90 + (360 - arcSpan) / 2 }

/-- `getNeedleAngle` from `arc.ts`: needle CSS rotation angle for a value in
`[min, max]`.  The code guards `max === min` and uses fraction 0 there. -/
noncomputable def getNeedleAngle (value min max arcSpan : ℝ) : ℝ :=
  let clamped := Max.max min (Min.min max value)
  let fraction := if max = min then 0 else (clamped - min) / (max - min)
  let baseRotation := 90 + (360 - arcSpan) / 2
  baseRotation + fraction * arcSpan + 90

/-- One element of `getSegmentArcs`' result; the dash string is again the
pair of its two numbers. -/
structure SegmentArc where
  dashArray : ℝ × ℝ
  dashOffset : ℝ

/-- The `segments.map` loop of `getSegmentArcs`, with the mutable
`consumedLength` accumulator made explicit. -/
noncomputable def segmentArcsMap (totalArcLength circumference : ℝ) :
    ℝ → List ℝ → List SegmentArc
  | _, [] => []
  | consumedLength, fraction :: rest =>
    let segmentLength := totalArcLength * fraction
    { dashArray := (segmentLength, circumference)
      dashOffset := -consumedLength } ::
      segmentArcsMap totalArcLength circumference
        (consumedLength + segmentLength) rest

/-- `getSegmentArcs` from `arc.ts`: per-segment dasharray/offset values for
multi-segment gauges. -/
noncomputable def getSegmentArcs (radius arcSpan : ℝ) (segments : List ℝ) :
    List SegmentArc :=
  let circumference := 2 * Real.pi * radius
  let totalArcLength := (arcSpan / 360) * circumference
  segmentArcsMap totalArcLength circumference 0 segments

/-- The arc track length used throughout: `(arcSpan/360) · 2πr`. -/
noncomputable def arcLengthOf (radius arcSpan : ℝ) : ℝ :=
  (arcSpan / 360) * (2 * Real.pi * radius)


/-- The default element used when indexing segment lists with `List.getD`. -/
def segDefault : SegmentArc := { dashArray := (0, 0), dashOffset := 0 }

lemma segmentArcsMap_length (L C : ℝ) :
    ∀ (c : ℝ) (fs : List ℝ), (segmentArcsMap L C c fs).length = fs.length := by
  intro c fs
  induction fs generalizing c with
  | nil => rfl
  | cons f rest ih => simp [segmentArcsMap, ih]

lemma segmentArcsMap_getD (L C : ℝ) :
    ∀ (fs : List ℝ) (c : ℝ) (k : ℕ), k < fs.length →
      (segmentArcsMap L C c fs).getD k segDefault =
        { dashArray := (L * fs.getD k 0, C)
          dashOffset := -(c + ((fs.take k).map (fun f => L * f)).sum) } := by
  intro fs
  induction fs with
  | nil => intro c k hk; simp at hk
  | cons f rest ih =>
    intro c k hk
    cases k with
    | zero => simp [segmentArcsMap]
    | succ k =>
      have hk' : k < rest.length := by simpa using hk
      simp only [segmentArcsMap, List.getD_cons_succ, List.take_succ_cons,
        List.map_cons, List.sum_cons]
      rw [ih (c + L * f) k hk']
      congr 1
      ring

/-- Claim C1: `getSegmentArcs` returns one descriptor per input fraction in
input order; segment `k`'s `dashOffset` is the negative cumulative sum of
`arcLength·fᵢ` for `i < k` (so segment 0's offset is 0, the empty sum), its
visible dash length is `arcLength·fₖ`, and consecutive segments are
contiguous: segment `k`'s end position equals segment `k+1`'s start. -/
theorem getSegmentArcs_spec (r span : ℝ) (fs : List ℝ) :
    (getSegmentArcs r span fs).length = fs.length ∧
    (∀ k, k < fs.length →
      ((getSegmentArcs r span fs).getD k segDefault).dashOffset =
        -(((fs.take k).map (fun f => arcLengthOf r span * f)).sum) ∧
      ((getSegmentArcs r span fs).getD k segDefault).dashArray.1 =
        arcLengthOf r span * fs.getD k 0) ∧
    (∀ k, k + 1 < fs.length →
      -((getSegmentArcs r span fs).getD k segDefault).dashOffset +
        ((getSegmentArcs r span fs).getD k segDefault).dashArray.1 =
      -((getSegmentArcs r span fs).getD (k + 1) segDefault).dashOffset) := by
  have hmain : ∀ k, k < fs.length →
      (getSegmentArcs r span fs).getD k segDefault =
        { dashArray := (arcLengthOf r span * fs.getD k 0, 2 * Real.pi * r)
          dashOffset :=
            -(((fs.take k).map (fun f => arcLengthOf r span * f)).sum) } := by
    intro k hk
    have h := segmentArcsMap_getD ((span / 360) * (2 * Real.pi * r))
      (2 * Real.pi * r) fs 0 k hk
    simp only [getSegmentArcs]
    rw [h]
    simp [arcLengthOf]
  refine ⟨?_, ?_, ?_⟩
  · simp [getSegmentArcs, segmentArcsMap_length]
  · intro k hk
    rw [hmain k hk]
    exact ⟨rfl, rfl⟩
  · intro k hk
    have hk0 : k < fs.length := Nat.lt_of_succ_lt hk
    rw [hmain k hk0, hmain (k + 1) hk]
    simp only [neg_neg]
    have htake : fs.take (k + 1) = fs.take k ++ [fs.get ⟨k, hk0⟩] := by
      rw [List.take_succ]
      simp [List.getElem?_eq_getElem hk0]
    have hgd : fs.getD k 0 = fs.get ⟨k, hk0⟩ := by
      simp [List.getD_eq_getElem?_getD, List.getElem?_eq_getElem hk0]
    rw [htake, hgd, List.map_append, List.sum_append]
    simp

/-- Witness for C1 at `r = 40`, `span = 180`, fractions `[1/4, 1/4, 1/2]`,
indices `k = 1` (offset and length) and `k = 0` (contiguity). -/
theorem getSegmentArcs_spec_witness :
    ((1 : ℕ) < ([(1:ℝ)/4, 1/4, 1/2] : List ℝ).length ∧
      ((getSegmentArcs 40 180 [1/4, 1/4, 1/2]).getD 1 segDefault).dashOffset =
        -((([(1:ℝ)/4, 1/4, 1/2].take 1).map
            (fun f => arcLengthOf 40 180 * f)).sum)) ∧
    ((0 : ℕ) + 1 < ([(1:ℝ)/4, 1/4, 1/2] : List ℝ).length ∧
      -((getSegmentArcs 40 180 [1/4, 1/4, 1/2]).getD 0 segDefault).dashOffset +
        ((getSegmentArcs 40 180 [1/4, 1/4, 1/2]).getD 0 segDefault).dashArray.1 =
      -((getSegmentArcs 40 180 [1/4, 1/4, 1/2]).getD (0 + 1)
          segDefault).dashOffset) :=
  ⟨⟨by norm_num,
    ((getSegmentArcs_spec 40 180 [1/4, 1/4, 1/2]).2.1 1 (by norm_num)).1⟩,
   ⟨by norm_num,
    (getSegmentArcs_spec 40 180 [1/4, 1/4, 1/2]).2.2 0 (by norm_num)⟩⟩

/-- Claim C2: for `r > 0`, `arcSpan > 0` and any fraction, `getArcDash`
returns circumference `2πr`, dash pattern `(arcLength, circumference)` with
`arcLength = (arcSpan/360)·2πr`, and
`dashOffset = arcLength − arcLength·clamp(f,0,1)`; in particular at
`(40, 180, 0.5)` the offset is `arcLength/2` with `arcLength = π·40`, the
offset at fraction 0 is `arcLength`, and at fraction 1 it is 0. -/
theorem getArcDash_spec (r span f : ℝ) (hr : 0 < r) (hspan : 0 < span) :
    (getArcDash r span f).circumference = 2 * Real.pi * r ∧
    (getArcDash r span f).dashArray = (arcLengthOf r span, 2 * Real.pi * r) ∧
    (getArcDash r span f).dashOffset =
      arcLengthOf r span - arcLengthOf r span * Max.max 0 (Min.min 1 f) ∧
    (getArcDash 40 180 (1 / 2)).dashOffset = Real.pi * 40 / 2 ∧
    (getArcDash 40 180 (1 / 2)).dashArray.1 = Real.pi * 40 ∧
    (getArcDash 40 180 0).dashOffset = Real.pi * 40 ∧
    (getArcDash 40 180 1).dashOffset = 0 := by
  refine ⟨rfl, rfl, rfl, ?_, ?_, ?_, ?_⟩
  all_goals simp only [getArcDash]
  all_goals norm_num [min_def, max_def]
  all_goals ring

/-- Witness for C2 at `r = 40`, `span = 180`, `f = 1/2`. -/
theorem getArcDash_spec_witness :
    (0 : ℝ) < 40 ∧ (0 : ℝ) < 180 ∧
      (getArcDash 40 180 (1 / 2)).circumference = 2 * Real.pi * 40 :=
  ⟨by norm_num, by norm_num, (getArcDash_spec 40 180 (1 / 2) (by norm_num)
    (by norm_num)).1⟩

/-- Claim C3: for `min < max`, `getNeedleAngle` equals
`baseRotation + fraction·arcSpan + 90` with
`baseRotation = 90 + (360 − arcSpan)/2` and
`fraction = (clamp(value,min,max) − min)/(max − min)`; fixtures for
range `[0,100]`, span 180: value 0 → 270, value 100 → 450, value 50 → 360. -/
theorem getNeedleAngle_spec (v mn mx span : ℝ) (h : mn < mx) :
    getNeedleAngle v mn mx span =
      (90 + (360 - span) / 2) +
        ((Max.max mn (Min.min mx v) - mn) / (mx - mn)) * span + 90 ∧
    getNeedleAngle 0 0 100 180 = 270 ∧
    getNeedleAngle 100 0 100 180 = 450 ∧
    getNeedleAngle 50 0 100 180 = 360 := by
  refine ⟨?_, ?_, ?_, ?_⟩
  · simp only [getNeedleAngle]
    rw [if_neg h.ne']
  all_goals norm_num [getNeedleAngle, min_def, max_def]

/-- Witness for C3 at `v = 0`, range `[0, 100]`, span 180. -/
theorem getNeedleAngle_spec_witness :
    (0 : ℝ) < 100 ∧ getNeedleAngle 0 0 100 180 = 270 :=
  ⟨by norm_num, (getNeedleAngle_spec 0 0 100 180 (by norm_num)).2.1⟩

/-- Claim C4: round-trip between the two dash operations —
`getSegmentArcs(r, span, [1.0])` yields exactly one descriptor whose dash
pattern equals that of `getArcDash(r, span, 1)` and whose `dashOffset` is 0,
identical to `getArcDash(r, span, 1).dashOffset`. -/
theorem segment_roundTrip (r span : ℝ) :
    (getSegmentArcs r span [1]).length = 1 ∧
    ((getSegmentArcs r span [1]).getD 0 segDefault).dashArray =
      (getArcDash r span 1).dashArray ∧
    ((getSegmentArcs r span [1]).getD 0 segDefault).dashOffset = 0 ∧
    (getArcDash r span 1).dashOffset = 0 := by
  refine ⟨rfl, ?_, ?_, ?_⟩
  · simp only [getSegmentArcs, segmentArcsMap, getArcDash, List.getD_cons_zero]
    norm_num
  · simp [getSegmentArcs, segmentArcsMap]
  · simp only [getArcDash]
    norm_num

/-- Claim C5: `rotationDeg` of `getArcDash` depends only on `arcSpan` — it
equals `90 + (360 − arcSpan)/2` for every radius and fraction, giving 180
for span 180, 135 for span 270, and 150 for span 240. -/
theorem rotationDeg_spec (r span f q g : ℝ) :
    (getArcDash r span f).rotationDeg = 90 + (360 - span) / 2 ∧
    (getArcDash r span f).rotationDeg = (getArcDash q span g).rotationDeg ∧
    (getArcDash r 180 f).rotationDeg = 180 ∧
    (getArcDash r 270 f).rotationDeg = 135 ∧
    (getArcDash r 240 f).rotationDeg = 150 := by
  refine ⟨rfl, rfl, ?_, ?_, ?_⟩ <;> · simp only [getArcDash]; norm_num

/-- Claim C6: fractions outside `[0,1]` are clamped — the whole descriptor
returned by `getArcDash` at `f > 1` equals the one at fraction 1, and at
`f < 0` equals the one at fraction 0. -/
theorem getArcDash_clamped (r span f : ℝ) :
    (1 < f → getArcDash r span f = getArcDash r span 1) ∧
    (f < 0 → getArcDash r span f = getArcDash r span 0) := by
  constructor
  · intro h
    simp only [getArcDash]
    rw [min_eq_left h.le, min_self]
  · intro h
    simp only [getArcDash]
    rw [min_eq_right (h.le.trans zero_le_one),
      max_eq_left h.le, min_eq_right zero_le_one, max_self]

/-- Witness for C6 at `r = 40`, `span = 180`, fractions `3/2` and `-1/2`. -/
theorem getArcDash_clamped_witness :
    getArcDash 40 180 (3 / 2) = getArcDash 40 180 1 ∧
    getArcDash 40 180 (-(1 / 2)) = getArcDash 40 180 0 :=
  ⟨(getArcDash_clamped 40 180 (3 / 2)).1 (by norm_num),
   (getArcDash_clamped 40 180 (-(1 / 2))).2 (by norm_num)⟩

/-- Claim C7: when `max = min`, `getNeedleAngle` is well-defined: the
fraction is taken as 0 and the result is the arc-start angle
`90 + (360 − arcSpan)/2 + 90`, the same angle as `value = min` gives on a
non-degenerate range. -/
theorem getNeedleAngle_degenerate (v mn mx span : ℝ) :
    getNeedleAngle v mn mn span = 90 + (360 - span) / 2 + 90 ∧
    (mn < mx → getNeedleAngle mn mn mx span = getNeedleAngle v mn mn span) := by
  have hdeg : getNeedleAngle v mn mn span = 90 + (360 - span) / 2 + 90 := by
    simp [getNeedleAngle]
  refine ⟨hdeg, fun h => ?_⟩
  rw [hdeg]
  simp only [getNeedleAngle]
  rw [if_neg h.ne', min_eq_right h.le, max_self]
  simp

/-- Witness for C7 at `v = 7`, `mn = 0`, `mx = 100`, span 180. -/
theorem getNeedleAngle_degenerate_witness :
    (0 : ℝ) < 100 ∧ getNeedleAngle 0 0 100 180 = getNeedleAngle 7 0 0 180 :=
  ⟨by norm_num, (getNeedleAngle_degenerate 7 0 100 180).2 (by norm_num)⟩

/-- Claim C8: `polarToCartesian` subtracts 90° from the input angle before
the standard polar-to-cartesian conversion, and satisfies the fixed points
`(cx, cy, r, 90) ↦ (cx + r, cy)` and `(cx, cy, r, 270) ↦ (cx − r, cy)`. -/
theorem polarToCartesian_spec (cx cy r a : ℝ) :
    polarToCartesian cx cy r a =
      (cx + r * Real.cos (degToRad (a - 90)),
        cy + r * Real.sin (degToRad (a - 90))) ∧
    polarToCartesian cx cy r 90 = (cx + r, cy) ∧
    polarToCartesian cx cy r 270 = (cx - r, cy) := by
  have h0 : degToRad (90 - 90) = 0 := by
    simp only [degToRad]
    ring
  have hpi : degToRad (270 - 90) = Real.pi := by
    simp only [degToRad]
    ring
  refine ⟨rfl, ?_, ?_⟩
  · simp only [polarToCartesian, h0, Real.cos_zero, Real.sin_zero,
      Prod.mk.injEq]
    constructor <;> ring
  · simp only [polarToCartesian, hpi, Real.cos_pi, Real.sin_pi,
      Prod.mk.injEq]
    constructor <;> ring

/-- Claim C9 (implicit): for an inverted range `min > max`, `getNeedleAngle`
still returns a well-defined result: the clamp collapses to `min`, the
fraction is 0, and the result is the arc-start angle
`90 + (360 − arcSpan)/2 + 90` regardless of the value. -/
theorem getNeedleAngle_inverted (v mn mx span : ℝ) (h : mx < mn) :
    getNeedleAngle v mn mx span = 90 + (360 - span) / 2 + 90 := by
  simp only [getNeedleAngle]
  rw [if_neg h.ne]
  have hclamp : Max.max mn (Min.min mx v) = mn :=
    max_eq_left ((min_le_left mx v).trans h.le)
  rw [hclamp]
  simp

/-- Witness for C9 at `v = 42`, `mn = 100`, `mx = 0`, span 180. -/
theorem getNeedleAngle_inverted_witness :
    (0 : ℝ) < 100 ∧ getNeedleAngle 42 100 0 180 = 90 + (360 - 180) / 2 + 90 :=
  ⟨by norm_num, getNeedleAngle_inverted 42 100 0 180 (by norm_num)⟩

/-- Claim C10 (implicit): for `r > 0` and `arcSpan > 0`, the `dashOffset`
of `getArcDash` lies in `[0, arcLength]` for every real fraction, where
`arcLength = (arcSpan/360)·2πr` — the filled portion never exceeds the
track and the offset is never negative. -/
theorem dashOffset_bounds (r span f : ℝ) (hr : 0 < r) (hspan : 0 < span) :
    0 ≤ (getArcDash r span f).dashOffset ∧
    (getArcDash r span f).dashOffset ≤ arcLengthOf r span := by
  have heq : (getArcDash r span f).dashOffset =
      arcLengthOf r span - arcLengthOf r span * Max.max 0 (Min.min 1 f) := rfl
  have hL : 0 ≤ arcLengthOf r span := by
    have hpi := Real.pi_pos
    simp only [arcLengthOf]
    positivity
  have hc0 : (0 : ℝ) ≤ Max.max 0 (Min.min 1 f) := le_max_left 0 _
  have hc1 : Max.max 0 (Min.min 1 f) ≤ 1 :=
    max_le zero_le_one (min_le_left 1 f)
  rw [heq]
  constructor
  · nlinarith
  · nlinarith

/-- Witness for C10 at `r = 40`, `span = 180`, `f = 5`. -/
theorem dashOffset_bounds_witness :
    (0 : ℝ) < 40 ∧ (0 : ℝ) < 180 ∧
      (0 ≤ (getArcDash 40 180 5).dashOffset ∧
        (getArcDash 40 180 5).dashOffset ≤ arcLengthOf 40 180) :=
  ⟨by norm_num, by norm_num,
    dashOffset_bounds 40 180 5 (by norm_num) (by norm_num)⟩

end TremorGauge
